import Mathlib

/-!
A shallow embedding of the `VariableSizedBox<T>` smart-pointer component
(`src/vsb.rs`), a variable-sized heap allocation primitive for FFI data.

Modelling conventions:
* Machine integers (`usize`) are `Nat` with explicit reduction modulo
  `2 ^ 64` exactly where the Rust code performs wrapping arithmetic
  (release-profile semantics for the two-complement subtractions in
  `sanitize_ptr` and `slice_from_total_bytes`, `usize::saturating_mul`,
  and pointer `wrapping_add`).
* A box value carries the tracked `size`, the numeric address `data` of the
  owned pointer, and `mem`, the byte contents of the single live allocation
  it owns (the heap cell), so that allocation length and contents are
  observable.
* The global allocator is nondeterministic: the address returned by
  `alloc`/`realloc` and the contents of uninitialized bytes are oracle
  parameters of the operations.  Allocator failure (`handle_alloc_error`)
  and `Layout::from_size_align(..).unwrap()` panics never return, so an
  operation yields `none` exactly when the Rust code diverges fatally
  before producing a value.
* Pointers handed to the slice helpers are numeric addresses; slices are
  returned as `(address, element count)` pairs, which is all the claims
  about them observe.
-/

/-- The modulus of 64-bit `usize` arithmetic, `2 ^ 64`. -/
def usizeMod : Nat := 18446744073709551616

/-- The value of `isize::MAX` on a 64-bit target, `2 ^ 63 - 1`. -/
def isizeMax : Nat := 9223372036854775807

/-- Wrapping 64-bit subtraction `a.wrapping_sub b`: the numeric value of
`a - b` computed in two-complement `usize` arithmetic. -/
def wsub (a b : Nat) : Nat := (a + (usizeMod - b % usizeMod)) % usizeMod

/-- Model of `usize::saturating_mul`: the product, capped at `usize::MAX`. -/
def satMul (a b : Nat) : Nat := min (a * b) (usizeMod - 1)

/-- Boolean power-of-two test (the alignment validity condition of
`core::alloc::Layout`). -/
def isPow2 (n : Nat) : Bool := n != 0 && (n &&& (n - 1)) == 0

/-- Model of `core::alloc::Layout`: a size/alignment pair. -/
structure Layout where
  size : Nat
  align : Nat

/-- Model of `Layout::from_size_align(size, align)`: succeeds iff `align`
is a nonzero power of two and `size` does not overflow `isize::MAX` when
rounded up to a multiple of `align` (the documented check is
`size > isize::MAX - (align - 1)`).  `none` models the `Err` result, on
which the code's `.unwrap()` panics fatally. -/
def Layout.from_size_align (size align : Nat) : Option Layout :=
  if isPow2 align = true ∧ size + (align - 1) ≤ isizeMax then some ⟨size, align⟩ else none

/-- Model of `VariableSizedBox<T>` (`vsb.rs` lines 15-19): the tracked
`size` in bytes, the numeric address `data` of the owned pointer, and the
byte contents `mem` of the single live allocation the box owns.  The
nominal type `T` enters only through its alignment `align_of::<T>()`,
which is passed explicitly as `alignT` to each operation, exactly as the
code recomputes it at each call site. -/
structure VariableSizedBox where
  size : Nat
  data : Nat
  mem : List Nat

/-- Model of `VariableSizedBox::new` (lines 22-33): builds the layout
`(size, align_of::<T>())` (panicking on `Err`, hence `none`), allocates,
and stores the size and pointer.  The allocator oracle supplies the
address `b` and the uninitialized byte contents `junk`; allocation failure
aborts the process and so never yields a value. -/
def VariableSizedBox.new (alignT n b : Nat) (junk : Nat → Nat) :
    Option VariableSizedBox :=
  match Layout.from_size_align n alignT with
  | none => none
  | some _ => some ⟨n, b, (List.range n).map junk⟩

/-- Model of `VariableSizedBox::zeroed` (lines 35-46): as `new`, but via
`alloc_zeroed`, so every byte of the returned region is zero. -/
def VariableSizedBox.zeroed (alignT n b : Nat) : Option VariableSizedBox :=
  match Layout.from_size_align n alignT with
  | none => none
  | some _ => some ⟨n, b, List.replicate n 0⟩

/-- Model of `VariableSizedBox::as_ptr` (lines 48-50): the start address of
the allocation. -/
def VariableSizedBox.as_ptr (v : VariableSizedBox) : Nat := v.data

/-- Model of `VariableSizedBox::as_mut_ptr` (lines 52-54). -/
def VariableSizedBox.as_mut_ptr (v : VariableSizedBox) : Nat := v.data

/-- Model of `VariableSizedBox::len` (lines 80-82): returns the tracked
size. -/
def VariableSizedBox.len (v : VariableSizedBox) : Nat := v.size

/-- Model of `VariableSizedBox::resize` (lines 70-78): builds the layout
from the *current* tracked size (panicking on `Err`), calls
`realloc(self.data, layout, size)` — which preserves the first
`min(old, new)` bytes and leaves any grown tail uninitialized — and then
updates the stored pointer and size.  The oracle supplies the possibly
relocated address `b'` and the contents `junk` of grown bytes. -/
def VariableSizedBox.resize (alignT : Nat) (v : VariableSizedBox) (m b' : Nat)
    (junk : Nat → Nat) : Option VariableSizedBox :=
  match Layout.from_size_align v.size alignT with
  | none => none
  | some _ => some ⟨m, b', v.mem.take m ++ (List.range (m - v.mem.length)).map junk⟩

/-- Model of `VariableSizedBox::sanitize_ptr` (lines 87-90): computes
`offset = o as isize - self.data as isize` (two-complement, wrapping in
release profile) and returns `self.data.offset(offset)`; numerically this
is `data + (o - data)` in wrapping 64-bit arithmetic. -/
def VariableSizedBox.sanitize_ptr (v : VariableSizedBox) (o : Nat) : Nat :=
  (v.data + wsub o v.data) % usizeMod

/-- Model of `VariableSizedBox::sanitize_mut_ptr` (lines 95-98): identical
address arithmetic to `sanitize_ptr`. -/
def VariableSizedBox.sanitize_mut_ptr (v : VariableSizedBox) (o : Nat) : Nat :=
  (v.data + wsub o v.data) % usizeMod

/-- Model of `VariableSizedBox::slice_from_count` (lines 104-110) for an
element type `U` with `size_of::<U>() = su`.  Performs the three
assertions in source order — a failed `assert!` aborts, hence `none`:
`ptr >= self.data`; `count.saturating_mul(size_of::<U>()) <= self.size`;
and `ptr.wrapping_add(count) <= self.data.add(self.size)`, where the
left-hand pointer addition advances `count * su` bytes modulo `2 ^ 64`.
On success, returns the slice as its `(address, element count)` pair. -/
def VariableSizedBox.slice_from_count (v : VariableSizedBox) (su o count : Nat) :
    Option (Nat × Nat) :=
  if VariableSizedBox.sanitize_ptr v o < v.data then none
  else if v.size < satMul count su then none
  else if v.data + v.size < (VariableSizedBox.sanitize_ptr v o + count * su) % usizeMod then none
  else some (VariableSizedBox.sanitize_ptr v o, count)

/-- Model of `VariableSizedBox::slice_from_count_mut` (lines 116-122):
identical checks and arithmetic to `slice_from_count`. -/
def VariableSizedBox.slice_from_count_mut (v : VariableSizedBox) (su o count : Nat) :
    Option (Nat × Nat) :=
  if VariableSizedBox.sanitize_mut_ptr v o < v.data then none
  else if v.size < satMul count su then none
  else if v.data + v.size < (VariableSizedBox.sanitize_mut_ptr v o + count * su) % usizeMod then none
  else some (VariableSizedBox.sanitize_mut_ptr v o, count)

/-- Model of `VariableSizedBox::slice_from_bytes` (lines 128-131): computes
`count = bytes / size_of::<U>()` — integer division, which panics fatally
when `size_of::<U>() = 0` — and delegates to `slice_from_count`. -/
def VariableSizedBox.slice_from_bytes (v : VariableSizedBox) (su o bytes : Nat) :
    Option (Nat × Nat) :=
  if su = 0 then none
  else VariableSizedBox.slice_from_count v su o (bytes / su)

/-- Model of `VariableSizedBox::slice_from_bytes_mut` (lines 137-140). -/
def VariableSizedBox.slice_from_bytes_mut (v : VariableSizedBox) (su o bytes : Nat) :
    Option (Nat × Nat) :=
  if su = 0 then none
  else VariableSizedBox.slice_from_count_mut v su o (bytes / su)

/-- Model of `VariableSizedBox::slice_from_total_bytes` (lines 146-149):
computes `bytes = total_bytes - (o as usize - self.data as usize)` with
wrapping `usize` subtractions (release profile) and delegates to
`slice_from_bytes`. -/
def VariableSizedBox.slice_from_total_bytes (v : VariableSizedBox)
    (su o total : Nat) : Option (Nat × Nat) :=
  VariableSizedBox.slice_from_bytes v su o (wsub total (wsub o v.data))

/-- Model of `VariableSizedBox::slice_from_total_bytes_mut` (lines 156-163). -/
def VariableSizedBox.slice_from_total_bytes_mut (v : VariableSizedBox)
    (su o total : Nat) : Option (Nat × Nat) :=
  VariableSizedBox.slice_from_bytes_mut v su o (wsub total (wsub o v.data))

/-- Model of `impl Drop for VariableSizedBox` (lines 165-170): the drop glue
rebuilds the layout from the currently tracked size (panicking on `Err`,
hence `none`) and calls `dealloc(self.data, layout)`; the result records
the exact `(address, layout)` argument pair passed to `dealloc`. -/
def VariableSizedBox.dropCall (alignT : Nat) (v : VariableSizedBox) :
    Option (Nat × Layout) :=
  match Layout.from_size_align v.size alignT with
  | none => none
  | some L => some (v.data, L)

/-- The boxes constructible by a defined execution: built by `new` or
`zeroed` and transformed by any sequence of `resize` calls, where every
allocator interaction respects the documented `GlobalAlloc` contract:
`alloc`/`alloc_zeroed` and `realloc` require a nonzero (new) size and a
new size that fits `isize::MAX` when rounded up to the alignment (zero or
oversized requests are undefined behavior, so no defined execution makes
them), and on success they return a nonzero address, aligned to the
layout's alignment, whose allocated object does not wrap the address
space. -/
inductive Reachable (alignT : Nat) : VariableSizedBox → Prop where
  | of_new : ∀ n b junk v, 0 < n →
      VariableSizedBox.new alignT n b junk = some v →
      b % alignT = 0 → 0 < b → b + n < usizeMod → Reachable alignT v
  | of_zeroed : ∀ n b v, 0 < n →
      VariableSizedBox.zeroed alignT n b = some v →
      b % alignT = 0 → 0 < b → b + n < usizeMod → Reachable alignT v
  | of_resize : ∀ v m b' junk v', Reachable alignT v → 0 < m →
      m + (alignT - 1) ≤ isizeMax →
      VariableSizedBox.resize alignT v m b' junk = some v' →
      b' % alignT = 0 → 0 < b' → b' + m < usizeMod → Reachable alignT v'

/-! ### Helper lemmas -/

/-- The mutable pointer sanitizer computes the same address as the shared
one (their bodies are identical arithmetic). -/
theorem sanitize_mut_eq (v : VariableSizedBox) (o : Nat) :
    VariableSizedBox.sanitize_mut_ptr v o = VariableSizedBox.sanitize_ptr v o := rfl

/-- The mutable count-slice helper computes the same result as the shared
one. -/
theorem slice_count_mut_eq (v : VariableSizedBox) (su o count : Nat) :
    VariableSizedBox.slice_from_count_mut v su o count =
      VariableSizedBox.slice_from_count v su o count := rfl

/-- The mutable byte-slice helper computes the same result as the shared
one. -/
theorem slice_bytes_mut_eq (v : VariableSizedBox) (su o bytes : Nat) :
    VariableSizedBox.slice_from_bytes_mut v su o bytes =
      VariableSizedBox.slice_from_bytes v su o bytes := rfl

/-- The mutable total-bytes helper computes the same result as the shared
one. -/
theorem slice_total_mut_eq (v : VariableSizedBox) (su o total : Nat) :
    VariableSizedBox.slice_from_total_bytes_mut v su o total =
      VariableSizedBox.slice_from_total_bytes v su o total := rfl

/-- Inversion for `Layout.from_size_align`: a successful layout records
exactly the requested size and alignment, and certifies the validity
conditions. -/
theorem from_size_align_eq_some (s a : Nat) (L : Layout)
    (h : Layout.from_size_align s a = some L) :
    L = ⟨s, a⟩ ∧ isPow2 a = true ∧ s + (a - 1) ≤ isizeMax := by
  unfold Layout.from_size_align at h
  split at h
  · rename_i hc
    exact ⟨(Option.some.inj h).symm, hc.1, hc.2⟩
  · exact Option.noConfusion h

/-- For an in-range address, sanitizing is the numeric identity: the
wrapping subtraction followed by the offset addition reproduces `o`. -/
theorem sanitize_ptr_id (v : VariableSizedBox) (o : Nat) (hb : v.data ≤ o)
    (ho : o < usizeMod) : VariableSizedBox.sanitize_ptr v o = o := by
  unfold VariableSizedBox.sanitize_ptr wsub
  rw [Nat.mod_eq_of_lt (by omega : v.data < usizeMod)]
  have h1 : o + (usizeMod - v.data) = (o - v.data) + usizeMod := by
    have : v.data ≤ usizeMod := by omega
    omega
  rw [h1, Nat.add_mod_right, Nat.mod_eq_of_lt (by omega : o - v.data < usizeMod)]
  have h2 : v.data + (o - v.data) = o := by omega
  rw [h2, Nat.mod_eq_of_lt ho]

/-- `List.getD` of a zero-filled list is zero at every in-range index. -/
theorem getD_replicate_zero (n i d : Nat) (h : i < n) :
    (List.replicate n (0 : Nat)).getD i d = 0 := by
  induction n generalizing i with
  | zero => omega
  | succ k ih =>
    cases i with
    | zero => rfl
    | succ j => exact ih j (by omega)

/-- `List.getD` on an append looks only at the left list when in range. -/
theorem getD_append_of_lt (l l' : List Nat) (i d : Nat) (h : i < l.length) :
    (l ++ l').getD i d = l.getD i d := by
  induction l generalizing i with
  | nil => simp at h
  | cons x t ih =>
    cases i with
    | zero => rfl
    | succ j =>
      exact ih j (by simp [List.length_cons] at h; omega)

/-- `List.getD` on a `take` agrees with the original list when in range. -/
theorem getD_take_of_lt (l : List Nat) (m i d : Nat) (h : i < m) :
    (l.take m).getD i d = l.getD i d := by
  induction l generalizing m i with
  | nil => rw [List.take_nil]
  | cons x t ih =>
    cases m with
    | zero => omega
    | succ k =>
      cases i with
      | zero => rfl
      | succ j => exact ih k j (by omega)

/-- The invariants of every box constructed by a defined execution:
positive tracked size matching the live allocation's length and bounded by
`isize::MAX`, an aligned nonzero base address, an allocated object that
does not wrap the address space, and a layout for the current size that
`Layout::from_size_align` accepts. -/
theorem reachable_props (alignT : Nat) (v : VariableSizedBox)
    (h : Reachable alignT v) :
    0 < v.size ∧ v.size = v.mem.length ∧ v.size ≤ isizeMax ∧
    v.data % alignT = 0 ∧ 0 < v.data ∧ v.data + v.size < usizeMod ∧
    Layout.from_size_align v.size alignT = some ⟨v.size, alignT⟩ := by
  induction h with
  | of_new n b junk w hn heq hal hb hw =>
    rcases hL : Layout.from_size_align n alignT with _ | L
    · simp only [VariableSizedBox.new, hL] at heq
      exact Option.noConfusion heq
    · obtain ⟨hL1, hL2, hL3⟩ := from_size_align_eq_some n alignT L hL
      simp only [VariableSizedBox.new, hL] at heq
      injection heq with hv
      subst hv
      refine ⟨hn, ?_, (show n ≤ isizeMax by omega), hal, hb, hw, ?_⟩
      · simp [List.length_map, List.length_range]
      · unfold Layout.from_size_align
        rw [if_pos ⟨hL2, hL3⟩]
  | of_zeroed n b w hn heq hal hb hw =>
    rcases hL : Layout.from_size_align n alignT with _ | L
    · simp only [VariableSizedBox.zeroed, hL] at heq
      exact Option.noConfusion heq
    · obtain ⟨hL1, hL2, hL3⟩ := from_size_align_eq_some n alignT L hL
      simp only [VariableSizedBox.zeroed, hL] at heq
      injection heq with hv
      subst hv
      refine ⟨hn, ?_, (show n ≤ isizeMax by omega), hal, hb, hw, ?_⟩
      · simp [List.length_replicate]
      · unfold Layout.from_size_align
        rw [if_pos ⟨hL2, hL3⟩]
  | of_resize v0 m b' junk v' hre0 hm hval heq hal hb hw ih =>
    obtain ⟨ih1, ih2, ih3, ih4, ih5, ih6, ih7⟩ := ih
    obtain ⟨hL1, hL2, hL3⟩ := from_size_align_eq_some v0.size alignT _ ih7
    simp only [VariableSizedBox.resize, ih7] at heq
    injection heq with hv
    subst hv
    refine ⟨hm, ?_, (show m ≤ isizeMax by omega), hal, hb, hw, ?_⟩
    · show m = (v0.mem.take m ++ (List.range (m - v0.mem.length)).map junk).length
      rw [List.length_append, List.length_take, List.length_map, List.length_range]
      omega
    · unfold Layout.from_size_align
      rw [if_pos ⟨hL2, hval⟩]

/-! ### Claim theorems -/

/-- Claim C3: for every constructed `VariableSizedBox`, the `size` field is
greater than 0 and equals the length in bytes of the single live
allocation it owns, and every operation (construction via `new` or
`zeroed`, and `resize`) preserves this invariant.  Construction and resize
are covered by the inductive `Reachable` predicate, whose side conditions
are the documented `GlobalAlloc` preconditions (notably: a zero-sized
`alloc`/`realloc` request is undefined behavior, so no defined execution
makes one). -/
theorem claimC3_size_invariant (alignT : Nat) (v : VariableSizedBox)
    (h : Reachable alignT v) : 0 < v.size ∧ v.size = v.mem.length :=
  ⟨(reachable_props alignT v h).1, (reachable_props alignT v h).2.1⟩

theorem claimC3_witness :
    0 < (⟨4, 8, List.replicate 4 0⟩ : VariableSizedBox).size ∧
    (⟨4, 8, List.replicate 4 0⟩ : VariableSizedBox).size =
      (⟨4, 8, List.replicate 4 0⟩ : VariableSizedBox).mem.length :=
  claimC3_size_invariant 4 ⟨4, 8, List.replicate 4 0⟩
    (Reachable.of_zeroed 4 8 ⟨4, 8, List.replicate 4 0⟩ (by decide) rfl
      (by decide) (by decide) (by decide))

/-- Claim C6: on destruction, a `VariableSizedBox` deallocates its backing
memory using the layout formed from its own currently tracked size and
`align_of::<T>()` — never a stale size — for every sequence of prior
resize calls: the `(address, layout)` pair handed to `dealloc` is exactly
the box's own base address and a layout whose size equals both the tracked
size and the live allocation's length.  (That drop glue runs exactly once
is Rust's ownership guarantee; `dealloc` has no other call site in the
file.) -/
theorem claimC6_drop_layout (alignT : Nat) (v : VariableSizedBox)
    (h : Reachable alignT v) :
    VariableSizedBox.dropCall alignT v = some (v.data, ⟨v.size, alignT⟩) ∧
    v.size = v.mem.length := by
  have hp := reachable_props alignT v h
  refine ⟨?_, hp.2.1⟩
  unfold VariableSizedBox.dropCall
  rw [hp.2.2.2.2.2.2]

theorem claimC6_witness :
    VariableSizedBox.dropCall 8 ⟨8, 32, List.replicate 8 0⟩ = some (32, ⟨8, 8⟩) ∧
    (⟨8, 32, List.replicate 8 0⟩ : VariableSizedBox).size =
      (⟨8, 32, List.replicate 8 0⟩ : VariableSizedBox).mem.length :=
  claimC6_drop_layout 8 ⟨8, 32, List.replicate 8 0⟩
    (Reachable.of_zeroed 8 32 ⟨8, 32, List.replicate 8 0⟩ (by decide) rfl
      (by decide) (by decide) (by decide))

/-- Claim C7: for every constructed `VariableSizedBox`, the address
returned by `as_ptr` is a multiple of `align_of::<T>()`, both immediately
after construction (`new` or `zeroed`) and after any sequence of `resize`
calls — each allocator result is aligned to the layout's alignment, and
every layout the code builds uses `align_of::<T>()`. -/
theorem claimC7_alignment (alignT : Nat) (v : VariableSizedBox)
    (h : Reachable alignT v) : VariableSizedBox.as_ptr v % alignT = 0 :=
  (reachable_props alignT v h).2.2.2.1

theorem claimC7_witness :
    VariableSizedBox.as_ptr
      ⟨4, 14, List.take 4 (List.replicate 6 0) ++
        (List.range (4 - 6)).map (fun _ => 5)⟩ % 2 = 0 :=
  claimC7_alignment 2 _
    (Reachable.of_resize ⟨6, 10, List.replicate 6 0⟩ 4 14 (fun _ => 5) _
      (Reachable.of_zeroed 6 10 ⟨6, 10, List.replicate 6 0⟩ (by decide) rfl
        (by decide) (by decide) (by decide))
      (by decide) (by decide) rfl (by decide) (by decide) (by decide))

/-- Claim C9: for every `VariableSizedBox` and every pointer `o` whose
address lies within the allocation, `sanitize_ptr` (and
`sanitize_mut_ptr`) returns a pointer whose numeric address equals the
address of `o`; only the provenance (not representable in this embedding)
differs. -/
theorem claimC9_sanitize (v : VariableSizedBox) (o : Nat) (h1 : v.data ≤ o)
    (h2 : o ≤ v.data + v.size) (h3 : v.data + v.size < usizeMod) :
    VariableSizedBox.sanitize_ptr v o = o ∧
    VariableSizedBox.sanitize_mut_ptr v o = o := by
  have hm := sanitize_ptr_id v o h1 (by omega)
  exact ⟨hm, by rw [sanitize_mut_eq]; exact hm⟩

theorem claimC9_witness :
    VariableSizedBox.sanitize_ptr ⟨8, 100, List.replicate 8 0⟩ 104 = 104 ∧
    VariableSizedBox.sanitize_mut_ptr ⟨8, 100, List.replicate 8 0⟩ 104 = 104 :=
  claimC9_sanitize ⟨8, 100, List.replicate 8 0⟩ 104 (by decide) (by decide)
    (by decide)

/-- Claim C4: for every valid byte count `n ≥ size_of::<T>()` (valid
meaning `Layout::from_size_align(n, align_of::<T>())` accepts it — for
larger `n` the constructor aborts fatally before yielding a box),
constructing with `zeroed(n)` yields a box whose `len()` returns `n` and
in which every byte at offsets `[0, n)` reads as zero. -/
theorem claimC4_zeroed_len_zero (alignT szT n b : Nat)
    (hpow : isPow2 alignT = true) (hval : n + (alignT - 1) ≤ isizeMax)
    (_hszT : szT ≤ n) :
    ∃ v, VariableSizedBox.zeroed alignT n b = some v ∧
      VariableSizedBox.len v = n ∧ ∀ i, i < n → v.mem.getD i 1 = 0 := by
  refine ⟨⟨n, b, List.replicate n 0⟩, ?_, rfl, ?_⟩
  · unfold VariableSizedBox.zeroed Layout.from_size_align
    rw [if_pos ⟨hpow, hval⟩]
  · intro i hi
    exact getD_replicate_zero n i 1 hi

theorem claimC4_witness :
    ∃ v, VariableSizedBox.zeroed 4 8 16 = some v ∧
      VariableSizedBox.len v = 8 ∧ ∀ i, i < 8 → v.mem.getD i 1 = 0 :=
  claimC4_zeroed_len_zero 4 4 8 16 (by decide) (by decide) (by decide)

/-- Claim C5: for every `VariableSizedBox` of old size `n` and every new
size `m`, `resize(m)` sets the tracked size to `m` and leaves the first
`min(n, m)` bytes of the allocation's contents unchanged (bytes beyond the
old size are unspecified junk from the oracle), and the layout it hands to
`realloc` carries the same alignment `align_of::<T>()` fixed at
construction. -/
theorem claimC5_resize_keeps_data (alignT : Nat) (v : VariableSizedBox)
    (m b' : Nat) (junk : Nat → Nat) (v' : VariableSizedBox)
    (hinv : v.size = v.mem.length)
    (h : VariableSizedBox.resize alignT v m b' junk = some v') :
    v'.size = m ∧
    (∀ i, i < min v.size m → v'.mem.getD i 0 = v.mem.getD i 0) ∧
    ∃ L, Layout.from_size_align v.size alignT = some L ∧ L.align = alignT := by
  rcases hL : Layout.from_size_align v.size alignT with _ | L
  · simp only [VariableSizedBox.resize, hL] at h
    exact Option.noConfusion h
  · simp only [VariableSizedBox.resize, hL] at h
    injection h with hv
    subst hv
    obtain ⟨hL1, hL2, hL3⟩ := from_size_align_eq_some v.size alignT L hL
    refine ⟨rfl, ?_, ⟨L, rfl, by rw [hL1]⟩⟩
    intro i hi
    have h1 : i < (v.mem.take m).length := by
      rw [List.length_take]
      omega
    show (v.mem.take m ++ (List.range (m - v.mem.length)).map junk).getD i 0 =
      v.mem.getD i 0
    rw [getD_append_of_lt _ _ _ _ h1, getD_take_of_lt _ _ _ _ (by omega : i < m)]

theorem claimC5_witness :
    (⟨6, 16, List.take 6 [1, 2, 3, 4] ++
        (List.range (6 - 4)).map (fun _ => 9)⟩ : VariableSizedBox).size = 6 ∧
    (∀ i, i < min (⟨4, 8, [1, 2, 3, 4]⟩ : VariableSizedBox).size 6 →
      (⟨6, 16, List.take 6 [1, 2, 3, 4] ++
        (List.range (6 - 4)).map (fun _ => 9)⟩ : VariableSizedBox).mem.getD i 0 =
      (⟨4, 8, [1, 2, 3, 4]⟩ : VariableSizedBox).mem.getD i 0) ∧
    ∃ L, Layout.from_size_align (⟨4, 8, [1, 2, 3, 4]⟩ : VariableSizedBox).size 1 =
      some L ∧ L.align = 1 :=
  claimC5_resize_keeps_data 1 ⟨4, 8, [1, 2, 3, 4]⟩ 6 16 (fun _ => 9)
    ⟨6, 16, List.take 6 [1, 2, 3, 4] ++ (List.range (6 - 4)).map (fun _ => 9)⟩
    rfl rfl

/-- Claim C8: for every field pointer `o`, byte length `bytes` and element
size `su = size_of::<U>() > 0` (for `su = 0` the division itself panics),
`slice_from_bytes(o, bytes)` behaves exactly as
`slice_from_count(o, bytes / su)` with integer division (likewise for the
mutable variants), and the `bytes / su` elements cover at most `bytes`
bytes, so a trailing partial element is silently dropped rather than
included or rejected. -/
theorem claimC8_bytes_delegates (v : VariableSizedBox) (su o bytes : Nat)
    (hsu : 0 < su) :
    VariableSizedBox.slice_from_bytes v su o bytes =
      VariableSizedBox.slice_from_count v su o (bytes / su) ∧
    VariableSizedBox.slice_from_bytes_mut v su o bytes =
      VariableSizedBox.slice_from_count_mut v su o (bytes / su) ∧
    bytes / su * su ≤ bytes := by
  refine ⟨?_, ?_, Nat.div_mul_le_self bytes su⟩
  · unfold VariableSizedBox.slice_from_bytes
    rw [if_neg hsu.ne']
  · unfold VariableSizedBox.slice_from_bytes_mut
    rw [if_neg hsu.ne']

theorem claimC8_witness :
    VariableSizedBox.slice_from_bytes ⟨8, 8, List.replicate 8 0⟩ 4 8 10 =
      VariableSizedBox.slice_from_count ⟨8, 8, List.replicate 8 0⟩ 4 8 (10 / 4) ∧
    VariableSizedBox.slice_from_bytes_mut ⟨8, 8, List.replicate 8 0⟩ 4 8 10 =
      VariableSizedBox.slice_from_count_mut ⟨8, 8, List.replicate 8 0⟩ 4 8 (10 / 4) ∧
    10 / 4 * 4 ≤ 10 :=
  claimC8_bytes_delegates ⟨8, 8, List.replicate 8 0⟩ 4 8 10 (by decide)

/-- Claim C10: for every `VariableSizedBox` and every field pointer at
byte offset `o` within the allocation, if `bytes < size_of::<U>()` (with
`size_of::<U>() > 0`), `slice_from_bytes` (and `slice_from_bytes_mut`)
succeeds and returns an empty slice (length 0) rather than failing: the
element count rounds down to zero before any bounds assertion. -/
theorem claimC10_empty_slice (v : VariableSizedBox) (su o bytes : Nat)
    (hsu : 0 < su) (hsmall : bytes < su) (ho : o ≤ v.size)
    (hM : v.data + v.size < usizeMod) :
    VariableSizedBox.slice_from_bytes v su (v.data + o) bytes =
      some (v.data + o, 0) ∧
    VariableSizedBox.slice_from_bytes_mut v su (v.data + o) bytes =
      some (v.data + o, 0) := by
  have hc : bytes / su = 0 := Nat.div_eq_of_lt hsmall
  have hsan : VariableSizedBox.sanitize_ptr v (v.data + o) = v.data + o :=
    sanitize_ptr_id v (v.data + o) (Nat.le_add_right _ _) (by omega)
  have main : VariableSizedBox.slice_from_bytes v su (v.data + o) bytes =
      some (v.data + o, 0) := by
    unfold VariableSizedBox.slice_from_bytes
    rw [if_neg hsu.ne', hc]
    unfold VariableSizedBox.slice_from_count
    rw [hsan]
    rw [if_neg (by omega : ¬ (v.data + o < v.data))]
    rw [if_neg (show ¬ (v.size < satMul 0 su) by unfold satMul; omega)]
    rw [if_neg (show ¬ (v.data + v.size < (v.data + o + 0 * su) % usizeMod) by
      rw [Nat.zero_mul, Nat.add_zero, Nat.mod_eq_of_lt (by omega : v.data + o < usizeMod)]
      omega)]
  exact ⟨main, by rw [slice_bytes_mut_eq]; exact main⟩

theorem claimC10_witness :
    VariableSizedBox.slice_from_bytes ⟨12, 8, List.replicate 12 0⟩ 8 (8 + 4) 5 =
      some (8 + 4, 0) ∧
    VariableSizedBox.slice_from_bytes_mut ⟨12, 8, List.replicate 12 0⟩ 8 (8 + 4) 5 =
      some (8 + 4, 0) :=
  claimC10_empty_slice ⟨12, 8, List.replicate 12 0⟩ 8 4 5 (by decide) (by decide)
    (by decide) (by decide)

/-- Claim C2 (amended): for every constructed `VariableSizedBox` of size
`size` bytes and every field pointer at byte offset `o` within the
allocation, *provided `base + 2 * size < 2 ^ 64`* — so that the asserted
end address cannot wrap the 64-bit address space — `slice_from_count`
(and `slice_from_count_mut`) fails fatally by assertion whenever
`o + count * size_of::<U>() > size`, including when
`count * size_of::<U>()` overflows, and succeeds returning a slice of
exactly `count` elements at the boundary
`o + count * size_of::<U>() = size`.  Without the proviso the
`wrapping_add` in the third assertion can wrap and let an out-of-bounds
request through (see the counterexample). -/
theorem claimC2_count_bounds (alignT : Nat) (v : VariableSizedBox)
    (su o count : Nat) (hre : Reachable alignT v) (ho : o ≤ v.size)
    (hwrap : v.data + 2 * v.size < usizeMod) :
    (v.size < o + count * su →
      VariableSizedBox.slice_from_count v su (v.data + o) count = none ∧
      VariableSizedBox.slice_from_count_mut v su (v.data + o) count = none) ∧
    (o + count * su = v.size →
      VariableSizedBox.slice_from_count v su (v.data + o) count =
        some (v.data + o, count) ∧
      VariableSizedBox.slice_from_count_mut v su (v.data + o) count =
        some (v.data + o, count)) := by
  have hp := reachable_props alignT v hre
  have hszMax : v.size ≤ isizeMax := hp.2.2.1
  have hM : usizeMod = 18446744073709551616 := rfl
  have hIM : isizeMax = 9223372036854775807 := rfl
  have hsan : VariableSizedBox.sanitize_ptr v (v.data + o) = v.data + o :=
    sanitize_ptr_id v (v.data + o) (Nat.le_add_right _ _) (by omega)
  constructor
  · intro hgt
    have main : VariableSizedBox.slice_from_count v su (v.data + o) count = none := by
      unfold VariableSizedBox.slice_from_count
      rw [hsan]
      rw [if_neg (by omega : ¬ (v.data + o < v.data))]
      by_cases hbig : v.size < satMul count su
      · rw [if_pos hbig]
      · rw [if_neg hbig]
        have hcs : count * su ≤ v.size := by
          unfold satMul at hbig
          omega
        rw [if_pos (show v.data + v.size < (v.data + o + count * su) % usizeMod by
          rw [Nat.mod_eq_of_lt (by omega : v.data + o + count * su < usizeMod)]
          omega)]
    exact ⟨main, by rw [slice_count_mut_eq]; exact main⟩
  · intro heq
    have hcs : count * su ≤ v.size := by omega
    have main : VariableSizedBox.slice_from_count v su (v.data + o) count =
        some (v.data + o, count) := by
      unfold VariableSizedBox.slice_from_count
      rw [hsan]
      rw [if_neg (by omega : ¬ (v.data + o < v.data))]
      rw [if_neg (show ¬ (v.size < satMul count su) by unfold satMul; omega)]
      rw [if_neg (show ¬ (v.data + v.size < (v.data + o + count * su) % usizeMod) by
        rw [Nat.mod_eq_of_lt (by omega : v.data + o + count * su < usizeMod)]
        omega)]
    exact ⟨main, by rw [slice_count_mut_eq]; exact main⟩

theorem claimC2_witness :
    (VariableSizedBox.slice_from_count ⟨16, 8, List.replicate 16 0⟩ 4 (8 + 8) 3 =
        none ∧
      VariableSizedBox.slice_from_count_mut ⟨16, 8, List.replicate 16 0⟩ 4 (8 + 8) 3 =
        none) ∧
    (VariableSizedBox.slice_from_count ⟨16, 8, List.replicate 16 0⟩ 4 (8 + 8) 2 =
        some (8 + 8, 2) ∧
      VariableSizedBox.slice_from_count_mut ⟨16, 8, List.replicate 16 0⟩ 4 (8 + 8) 2 =
        some (8 + 8, 2)) := by
  have hre : Reachable 4 ⟨16, 8, List.replicate 16 0⟩ :=
    Reachable.of_zeroed 16 8 ⟨16, 8, List.replicate 16 0⟩ (by decide) rfl
      (by decide) (by decide) (by decide)
  exact ⟨(claimC2_count_bounds 4 ⟨16, 8, List.replicate 16 0⟩ 4 8 3 hre
        (by decide) (by decide)).1 (by decide),
      (claimC2_count_bounds 4 ⟨16, 8, List.replicate 16 0⟩ 4 8 2 hre
        (by decide) (by decide)).2 (by decide)⟩

/-- Claim C2 counterexample: the claim as stated (failure whenever
`o + count * size_of::<U>() > size`, for *every* constructed box) is
false.  For a constructible box of `isize::MAX` bytes at base address 16
(alignment 1), element size 7, field offset `2 ^ 63 - 2` and count
`(2 ^ 63 - 1) / 7`, the requested slice ends `2 ^ 63 - 3` bytes past the
allocation, yet all three assertions pass — the `wrapping_add` in the
third assertion wraps the address space — and a slice is returned. -/
theorem claimC2_counterexample :
    Reachable 1 ⟨9223372036854775807, 16, List.replicate 9223372036854775807 0⟩ ∧
    (9223372036854775806 : Nat) ≤ 9223372036854775807 ∧
    (9223372036854775807 : Nat) < 9223372036854775806 + 1317624576693539401 * 7 ∧
    VariableSizedBox.slice_from_count
      ⟨9223372036854775807, 16, List.replicate 9223372036854775807 0⟩ 7
      (16 + 9223372036854775806) 1317624576693539401 =
      some (9223372036854775822, 1317624576693539401) := by
  refine ⟨?_, by decide, by decide, ?_⟩
  · exact Reachable.of_zeroed 9223372036854775807 16
      ⟨9223372036854775807, 16, List.replicate 9223372036854775807 0⟩
      (by decide) rfl (by decide) (by decide) (by decide)
  · rfl

/-- Claim C1 (amended): for every constructed `VariableSizedBox` and every
field pointer at byte offset `off` from the base of the allocation,
*provided `size_of::<U>() + 2 * size ≤ 2 ^ 64`*, calling
`slice_from_total_bytes` (or `slice_from_total_bytes_mut`) with
`total_bytes < off` fails fatally as a bounds violation: the release-mode
subtraction does wrap modulo `2 ^ 64`, but the wrapped byte count is so
large that the `saturating_mul` size assertion inside `slice_from_count`
rejects it.  Without the proviso (allocations within `size_of::<U>() / 2`
bytes of `isize::MAX`) the wrapped end-address comparison can itself wrap
and a slice is silently produced (see the counterexample). -/
theorem claimC1_total_underflow (alignT : Nat) (v : VariableSizedBox)
    (su off total : Nat) (hre : Reachable alignT v) (hoff : off ≤ v.size)
    (htot : total < off) (hsu : su + 2 * v.size ≤ usizeMod) :
    VariableSizedBox.slice_from_total_bytes v su (v.data + off) total = none ∧
    VariableSizedBox.slice_from_total_bytes_mut v su (v.data + off) total = none := by
  have hp := reachable_props alignT v hre
  have hdM : v.data + v.size < usizeMod := hp.2.2.2.2.2.1
  have hM : usizeMod = 18446744073709551616 := rfl
  have hoffM : off < usizeMod := by omega
  have hdlt : v.data < usizeMod := by omega
  have hA : wsub (v.data + off) v.data = off := by
    unfold wsub
    rw [Nat.mod_eq_of_lt hdlt]
    rw [(show v.data + off + (usizeMod - v.data) = off + usizeMod by omega)]
    rw [Nat.add_mod_right, Nat.mod_eq_of_lt hoffM]
  have hB : wsub total off = usizeMod - (off - total) := by
    unfold wsub
    rw [Nat.mod_eq_of_lt hoffM]
    rw [(show total + (usizeMod - off) = usizeMod - (off - total) by omega)]
    rw [Nat.mod_eq_of_lt (by omega)]
  have main :
      VariableSizedBox.slice_from_total_bytes v su (v.data + off) total = none := by
    unfold VariableSizedBox.slice_from_total_bytes
    rw [hA, hB]
    unfold VariableSizedBox.slice_from_bytes
    by_cases hsu0 : su = 0
    · rw [if_pos hsu0]
    · rw [if_neg hsu0]
      have hsupos : 0 < su := Nat.pos_of_ne_zero hsu0
      have hdm := Nat.div_add_mod (usizeMod - (off - total)) su
      have hmod := Nat.mod_lt (usizeMod - (off - total)) hsupos
      have hkey : v.size < satMul ((usizeMod - (off - total)) / su) su := by
        unfold satMul
        rw [Nat.mul_comm]
        omega
      unfold VariableSizedBox.slice_from_count
      by_cases hc1 : VariableSizedBox.sanitize_ptr v (v.data + off) < v.data
      · rw [if_pos hc1]
      · rw [if_neg hc1, if_pos hkey]
  exact ⟨main, by rw [slice_total_mut_eq]; exact main⟩

theorem claimC1_witness :
    VariableSizedBox.slice_from_total_bytes ⟨32, 16, List.replicate 32 0⟩ 2
      (16 + 8) 3 = none ∧
    VariableSizedBox.slice_from_total_bytes_mut ⟨32, 16, List.replicate 32 0⟩ 2
      (16 + 8) 3 = none :=
  claimC1_total_underflow 8 ⟨32, 16, List.replicate 32 0⟩ 2 8 3
    (Reachable.of_zeroed 32 16 ⟨32, 16, List.replicate 32 0⟩ (by decide) rfl
      (by decide) (by decide) (by decide))
    (by decide) (by decide) (by decide)

/-- Claim C1 counterexample: the claim as stated (every underflowing
`total_bytes < off` call fails fatally; the subtraction never silently
wraps around to produce a slice) is false.  For a constructible box of
`isize::MAX` bytes at base address 8 (alignment 1), element size 7, field
offset `2 ^ 63 - 2` and `total_bytes = 0 < off`, the wrapping subtraction
yields byte count `2 ^ 63 + 2`, whose element count passes the
`saturating_mul` assertion exactly, and the wrapped end-address comparison
also passes, so a slice of `(2 ^ 63 - 1) / 7` elements is silently
returned. -/
theorem claimC1_counterexample :
    Reachable 1 ⟨9223372036854775807, 8, List.replicate 9223372036854775807 0⟩ ∧
    (0 : Nat) < 9223372036854775806 ∧
    (9223372036854775806 : Nat) ≤ 9223372036854775807 ∧
    VariableSizedBox.slice_from_total_bytes
      ⟨9223372036854775807, 8, List.replicate 9223372036854775807 0⟩ 7
      (8 + 9223372036854775806) 0 =
      some (9223372036854775814, 1317624576693539401) := by
  refine ⟨?_, by decide, by decide, ?_⟩
  · exact Reachable.of_zeroed 9223372036854775807 8
      ⟨9223372036854775807, 8, List.replicate 9223372036854775807 0⟩
      (by decide) rfl (by decide) (by decide) (by decide)
  · rfl
